import Mathlib

/-!
# UC ORB Showcase — read-model query/filter/paginate pipeline

Shallow embedding of the code excerpts documented in this repository:

* the client-side Filter Engine (`filteredRepositories` in
  `docs/components/repository-components.md`),
* the Paginator (`pagedRepositories` / `totalPages`, same file),
* the page-number display logic (`getPageNumbers`, same file),
* the page-reset effect on filter changes (same file), and
* the server-side Query Service (`list_repositories` / `get_repository`
  in `docs/api/repositories.md`), with SQL `WHERE`/`ORDER BY`/
  `LIMIT`/`OFFSET` clauses embedded as list operations.

Strings are manipulated through their character lists so that every
definition evaluates inside the kernel.
-/

deriving instance DecidableEq for Except

namespace Orb

/-- Lower-casing of a string, character by character (JS `toLowerCase`,
Python `str.lower`, and the case folding performed by SQL `ILIKE`). -/
def lowerStr (s : String) : String :=
  ⟨s.data.map Char.toLower⟩

/-- Whitespace trimming at both ends (JS `String.prototype.trim`). -/
def trimStr (s : String) : String :=
  ⟨((s.data.dropWhile Char.isWhitespace).reverse.dropWhile Char.isWhitespace).reverse⟩

/-- `substrAux p l` is true when `p` occurs as a contiguous run inside `l`. -/
def substrAux (p : List Char) : List Char → Bool
  | [] => p.isEmpty
  | c :: rest => p.isPrefixOf (c :: rest) || substrAux p rest

/-- Case-insensitive substring test: the semantics of
`column ILIKE '%' || lower(pat) || '%'`. -/
def containsCI (pat s : String) : Bool :=
  substrAux (lowerStr pat).data (lowerStr s).data

/-! ## Data model

One record per catalogued open-source project.  All non-identifier
fields are optional (`docs/api/repositories.md`, Data Model section);
the categorical filter dimensions are `university`, `language`,
`license`, `owner`, `topic_area_ai`. -/

/-- Client-side repository record (the fields the Filter Engine reads). -/
structure Repo where
  full_name : String
  description : Option String
  university : Option String
  language : Option String
  license : Option String
  owner : Option String
  topic_area_ai : Option String
  deriving Repr, DecidableEq

/-- The Zustand/`useState` state the filtering pipeline reads: search term
plus one multi-select list per categorical dimension. -/
structure FilterState where
  searchTerm : String
  universitiesSelected : List String
  languagesSelected : List String
  licensesSelected : List String
  ownersSelected : List String
  topicsSelected : List String
  deriving Repr, DecidableEq

/-- The JS test `r.field && selected.includes(r.field)`: a missing field
(`null`/`undefined`) and the empty string are falsy, so such records are
dropped by an active filter on that dimension. -/
def fieldMatches (field : Option String) (selected : List String) : Bool :=
  match field with
  | none => false
  | some v => (v != "") && selected.contains v

/-! ## Fuzzy search (third-party `fuzzysort` library) -/

/-- The `limit` option passed to `fuzzysort.go` in `filteredRepositories`. -/
def fuzzyLimit : Nat := 50

/-- The `threshold` option passed to `fuzzysort.go` in `filteredRepositories`. -/
def fuzzyThreshold : Int := -10000

/-- Modelled from the spec: `fuzzysort` scores a candidate against each of
the configured keys (`full_name` and `description` here) and ranks it by
its best key score.  The per-key scoring function itself is abstract.
A record with no score on any key is not a match. -/
def bestKeyScore (keyScore : String → String → Option Int) (term : String) (r : Repo) :
    Option Int :=
  match keyScore term r.full_name, r.description.bind (keyScore term) with
  | none, s => s
  | some a, none => some a
  | some a, some b => some (max a b)

/-- Descending order on scored records: higher relevance first. -/
def scoreRel (a b : Int × Repo) : Prop := b.1 ≤ a.1

instance : DecidableRel scoreRel := fun a b => Int.decLe b.1 a.1

instance : IsTotal (Int × Repo) scoreRel := ⟨fun a b => le_total b.1 a.1⟩

instance : IsTrans (Int × Repo) scoreRel := ⟨fun _ _ _ h1 h2 => le_trans h2 h1⟩

/-- Modelled from the spec: the result list of `fuzzysort.go(term, items,
{keys, threshold, limit})`, with scores attached — candidates that score on
some key, kept when at or above `threshold`, ordered by descending score,
truncated to `limit`.  The library itself is not part of this repository;
this is its documented contract. -/
def fuzzysortRanked (keyScore : String → String → Option Int) (term : String)
    (threshold : Int) (limit : Nat) (items : List Repo) : List (Int × Repo) :=
  (List.insertionSort scoreRel
    ((items.filterMap (fun r => (bestKeyScore keyScore term r).map (fun s => (s, r)))).filter
      (fun p => decide (threshold ≤ p.1)))).take limit

/-- Modelled from the spec: `fuzzysort.go(...).map(r => r.obj)` — the ranked
matches with their scores stripped. -/
def fuzzysortGo (keyScore : String → String → Option Int) (term : String)
    (threshold : Int) (limit : Nat) (items : List Repo) : List Repo :=
  (fuzzysortRanked keyScore term threshold limit items).map Prod.snd

/-! ## Filter Engine (`filteredRepositories`) -/

/-- One guarded filter statement of the memo:
`if (sel.length > 0) result = result.filter(r => r.field && sel.includes(r.field))`. -/
def applyDimFilter (sel : List String) (field : Repo → Option String)
    (result : List Repo) : List Repo :=
  if 0 < sel.length then result.filter (fun r => fieldMatches (field r) sel)
  else result

/-- The `filteredRepositories` memo from `RepositoriesPageClient`:
five guarded categorical filters, then fuzzy search when the trimmed
term is non-empty.  `repositories` is `Option`-typed because the memo
returns `[]` before the fetch resolves (`if (!repositories) return []`). -/
def filteredRepositories (keyScore : String → String → Option Int)
    (repositories : Option (List Repo)) (st : FilterState) : List Repo :=
  match repositories with
  | none => []
  | some repos =>
    let result := repos
    let result := applyDimFilter st.universitiesSelected (fun r => r.university) result
    let result := applyDimFilter st.languagesSelected (fun r => r.language) result
    let result := applyDimFilter st.licensesSelected (fun r => r.license) result
    let result := applyDimFilter st.ownersSelected (fun r => r.owner) result
    let result := applyDimFilter st.topicsSelected (fun r => r.topic_area_ai) result
    if trimStr st.searchTerm != "" then
      fuzzysortGo keyScore st.searchTerm fuzzyThreshold fuzzyLimit result
    else result

/-! ## Paginator -/

/-- `Math.max(1, Math.ceil(totalItems / pageSize))`; for naturals with
`pageSize ≥ 1`, `⌈n / k⌉ = (n + k - 1) / k`. -/
def totalPages (totalItems pageSize : Nat) : Nat :=
  max 1 ((totalItems + pageSize - 1) / pageSize)

/-- `Array.prototype.slice(start, stop)` for in-range indices. -/
def jsSlice {α : Type} (l : List α) (start stop : Nat) : List α :=
  (l.drop start).take (stop - start)

/-- `filteredRepositories.slice((page - 1) * pageSize, page * pageSize)`. -/
def pagedRepositories {α : Type} (items : List α) (page pageSize : Nat) : List α :=
  jsSlice items ((page - 1) * pageSize) (page * pageSize)

/-! ## Page-number display (`getPageNumbers`) -/

/-- A token rendered by the pagination control: a page number or one of the
two ellipsis gap markers used by `getPageNumbers`. -/
inductive PageToken where
  | num : Nat → PageToken
  | ellipsisPrev : PageToken
  | ellipsisNext : PageToken
  deriving Repr, DecidableEq

/-- The numeric value of a token, when it is a page number. -/
def tokenNum : PageToken → Option Nat
  | .num n => some n
  | .ellipsisPrev => none
  | .ellipsisNext => none

/-- Helper for `dedupFirst`: drop every element already seen earlier. -/
def dedupFirstAux (seen : List PageToken) : List PageToken → List PageToken
  | [] => []
  | a :: l => if seen.contains a then dedupFirstAux seen l
              else a :: dedupFirstAux (a :: seen) l

/-- `arr.filter((v, i, a) => a.indexOf(v) === i)`: keep the first
occurrence of each element, in order. -/
def dedupFirst (l : List PageToken) : List PageToken :=
  dedupFirstAux [] l

/-- `getPageNumbers(current, total)` from `RepositoryPagination`. -/
def getPageNumbers (current total : Nat) : List PageToken :=
  if total ≤ 7 then
    (List.range total).map (fun i => .num (i + 1))
  else
    let arr : List PageToken := [.num 1]
    let arr := if current ≤ 3 then
        (arr ++ [.num 2, .num 3]) ++ (if current < 3 then [.ellipsisNext] else [])
      else if total - 2 ≤ current then
        (arr ++ [.ellipsisPrev]) ++ (List.range 4).map (fun i => .num (total - 4 + i))
      else
        arr ++ [.ellipsisPrev, .num (current - 1), .num current, .num (current + 1),
          .ellipsisNext]
    dedupFirst (arr ++ [.num total])

/-! ## Page-reset effect

`React.useEffect(() => setPage(1), [searchTerm, universitiesSelected,
languagesSelected, licensesSelected, ownersSelected])` — the dependency
array omits `topicsSelected`. -/

/-- The dependency array of the page-reset effect. -/
def pageResetDeps (st : FilterState) :
    String × List String × List String × List String × List String :=
  (st.searchTerm, st.universitiesSelected, st.languagesSelected,
    st.licensesSelected, st.ownersSelected)

/-- The page value after a state transition: the effect fires (and resets
the page to 1) exactly when some entry of its dependency array changed. -/
def pageAfterFilterChange (prev next : FilterState) (page : Nat) : Nat :=
  if pageResetDeps prev ≠ pageResetDeps next then 1 else page

/-! ## Query Service (`docs/api/repositories.md`)

A row of the `Repository` database view.  The `stargazers_count`,
`forks_count` and `created_at` columns are the sortable ones; they are
embedded as integers (timestamps as epoch values) since only their
ordering matters to the queries. -/

/-- Server-side repository row. -/
structure Repository where
  full_name : String
  description : Option String
  short_description : Option String
  university : Option String
  language : Option String
  license : Option String
  owner : Option String
  topic_area_ai : Option String
  stargazers_count : Int
  forks_count : Int
  created_at : Int
  approved : Bool
  deriving Repr, DecidableEq

/-- The query parameters of `GET /repositories`.  `List.nil` stands for an
absent repeated parameter (FastAPI passes `None`, and both `None` and `[]`
are falsy in the `if university:` guards). -/
structure ListParams where
  q : Option String
  university : List String
  language : List String
  license : List String
  owner : List String
  topic_area_ai : List String
  sort : String
  order : String
  limit : Option Int
  offset : Option Int
  deriving Repr, DecidableEq

/-- A request with every optional parameter left at its default
(`sort="stargazers_count"`, `order="desc"`, no filters, no paging). -/
def defaultListParams : ListParams :=
  { q := none, university := [], language := [], license := [], owner := [],
    topic_area_ai := [], sort := "stargazers_count", order := "desc",
    limit := none, offset := none }

/-- `sort_map.get(sort, Repository.stargazers_count)`: the sort column for a
requested field name, defaulting to `stargazers_count` for any name outside
the allow-list. -/
def sortColumn (sort : String) : Repository → Int :=
  if sort = "stargazers_count" then fun r => r.stargazers_count
  else if sort = "forks_count" then fun r => r.forks_count
  else if sort = "created_at" then fun r => r.created_at
  else fun r => r.stargazers_count

/-- The `ORDER BY` comparator: ascending on the sort column when
`order == "asc"`, descending otherwise. -/
def sqlOrderLE (sort order : String) (a b : Repository) : Bool :=
  if order = "asc" then decide (sortColumn sort a ≤ sortColumn sort b)
  else decide (sortColumn sort b ≤ sortColumn sort a)

/-- `full_name ILIKE '%q%' OR description ILIKE '%q%'` with `q` lowered;
a SQL `NULL` column never matches. -/
def searchMatches (q : String) (r : Repository) : Bool :=
  containsCI q r.full_name ||
    (match r.description with
     | some d => containsCI q d
     | none => false)

/-- `column IN (values)`: membership, with `NULL` never matching. -/
def inFilter (field : Option String) (vals : List String) : Bool :=
  match field with
  | some v => vals.contains v
  | none => false

/-- The `if q: statement.where(full_name ILIKE ... OR description ILIKE ...)`
clause (`None` and the empty string are falsy in Python). -/
def applySearch (q : Option String) (stmt : List Repository) : List Repository :=
  match q with
  | some s => if s != "" then stmt.filter (searchMatches s) else stmt
  | none => stmt

/-- One `if vals: statement.where(column.in_(vals))` clause. -/
def applyCatFilter (vals : List String) (field : Repository → Option String)
    (stmt : List Repository) : List Repository :=
  if 0 < vals.length then stmt.filter (fun r => inFilter (field r) vals)
  else stmt

/-- The `if offset: statement.offset(offset)` clause (`None` and `0` are
falsy; SQL applies `OFFSET` before `LIMIT`). -/
def applyOffset (offset : Option Int) (stmt : List Repository) : List Repository :=
  match offset with
  | some o => if o != 0 then stmt.drop o.toNat else stmt
  | none => stmt

/-- The `if limit: statement.limit(limit)` clause. -/
def applyLimit (limit : Option Int) (stmt : List Repository) : List Repository :=
  match limit with
  | some l => if l != 0 then stmt.take l.toNat else stmt
  | none => stmt

/-- The `list_repositories` endpoint body: the `SELECT ... WHERE approved
AND <search> AND <category filters> ORDER BY ... OFFSET ... LIMIT ...`
statement it builds, evaluated over the rows of the view with SQL
semantics: all `WHERE` clauses conjoined, then `ORDER BY`, then
`OFFSET`/`LIMIT`. -/
def list_repositories (p : ListParams) (rows : List Repository) : List Repository :=
  applyLimit p.limit
    (applyOffset p.offset
      (List.insertionSort (fun a b => sqlOrderLE p.sort p.order a b = true)
        (applyCatFilter p.topic_area_ai (fun r => r.topic_area_ai)
          (applyCatFilter p.owner (fun r => r.owner)
            (applyCatFilter p.license (fun r => r.license)
              (applyCatFilter p.language (fun r => r.language)
                (applyCatFilter p.university (fun r => r.university)
                  (applySearch p.q (rows.filter (fun r => r.approved))))))))))

/-- FastAPI validation of `limit: int = Query(None, ge=1, le=100)`. -/
def validateLimit : Option Int → Bool
  | none => true
  | some l => decide (1 ≤ l) && decide (l ≤ 100)

/-- FastAPI validation of `offset: int = Query(None, ge=0)`. -/
def validateOffset : Option Int → Bool
  | none => true
  | some o => decide (0 ≤ o)

/-- The endpoint as seen by a caller: FastAPI rejects a request violating a
parameter constraint with a 422 validation error before the handler body
runs; otherwise the handler's rows are returned. -/
def list_repositories_endpoint (p : ListParams) (rows : List Repository) :
    Except Nat (List Repository) :=
  if validateLimit p.limit && validateOffset p.offset then
    Except.ok (list_repositories p rows)
  else Except.error 422

/-- The `get_repository` endpoint: reconstruct the identifier
`full_name = f"{owner}/{repo}"` (inlined below), reject empty path
components with 400, then return the first approved row with that
`full_name`, or 404 when there is none. -/
def get_repository (rows : List Repository) (owner repo : String) :
    Except Nat Repository :=
  if owner == "" || repo == "" then Except.error 400
  else
    match (rows.filter
        (fun r => (r.full_name == owner ++ "/" ++ repo) && r.approved)).head? with
    | some r => Except.ok r
    | none => Except.error 404

/-! ## Sample data (used by witnesses) -/

/-- A client-side record with the given identifier and filter fields. -/
def sampleRepo (fn : String) (uni lang topic : Option String) : Repo :=
  { full_name := fn, description := none, university := uni, language := lang,
    license := none, owner := none, topic_area_ai := topic }

/-- A server-side row with the given identifier, language, star count and
approval flag. -/
def sampleRow (fn : String) (lang : Option String) (stars : Int) (appr : Bool) :
    Repository :=
  { full_name := fn, description := some "d", short_description := some "s",
    university := some "UC Berkeley", language := lang, license := none,
    owner := none, topic_area_ai := none, stargazers_count := stars,
    forks_count := 0, created_at := 0, approved := appr }

/-- The end-to-end seed of the spec: two approved rows and one unapproved. -/
def seedRows : List Repository :=
  [sampleRow "uc-berkeley/example-repo" (some "Python") 10 true,
   sampleRow "ucla/sample-project" (some "JavaScript") 5 true,
   sampleRow "bad/unapproved" (some "Python") 99 false]

/-- Sample client-side record for the Berkeley repository. -/
def bRepo : Repo :=
  sampleRepo "uc-berkeley/example-repo" (some "UC Berkeley") (some "Python") (some "ML")

/-- Sample client-side record for the UCLA repository. -/
def lRepo : Repo :=
  sampleRepo "ucla/sample-project" (some "UCLA") (some "JavaScript") (some "ML")

/-- A filter state with only the university dimension active. -/
def uniOnlySt : FilterState :=
  { searchTerm := "", universitiesSelected := ["UC Berkeley"], languagesSelected := [],
    licensesSelected := [], ownersSelected := [], topicsSelected := [] }

/-- A filter state with only a search term active. -/
def searchSt : FilterState :=
  { searchTerm := "repo", universitiesSelected := [], languagesSelected := [],
    licensesSelected := [], ownersSelected := [], topicsSelected := [] }

/-- A scoring function giving every candidate the same relevance. -/
def constScore : String → String → Option Int := fun _ _ => some 1

/-- The filter state with no search term and no selections. -/
def emptySt : FilterState :=
  { searchTerm := "", universitiesSelected := [], languagesSelected := [],
    licensesSelected := [], ownersSelected := [], topicsSelected := [] }

/-! ## Paginator lemmas -/

/-- `totalPages n k` pages of size `k` cover all `n` items. -/
theorem le_totalPages_mul (n k : Nat) (hk : 1 ≤ k) : n ≤ totalPages n k * k := by
  rcases Nat.eq_zero_or_pos n with h0 | h0
  · simp [h0]
  · unfold totalPages
    have h5 : n ≤ ((n + k - 1) / k) * k := by
      have h1 := Nat.div_add_mod (n + k - 1) k
      have h2 : (n + k - 1) % k < k := Nat.mod_lt _ (by omega)
      rw [Nat.mul_comm]
      generalize (n + k - 1) / k = q at h1 ⊢
      generalize (n + k - 1) % k = s at h1 h2
      generalize k * q = m at h1 ⊢
      omega
    exact le_trans h5 (Nat.mul_le_mul (le_max_right 1 _) (le_refl k))

/-- Page `i + 1` is the `i`-th block of `pageSize` consecutive items. -/
theorem pagedRepositories_succ {α : Type} (items : List α) (i k : Nat) :
    pagedRepositories items (i + 1) k = (items.drop (i * k)).take k := by
  have e1 : i + 1 - 1 = i := rfl
  have e2 : (i + 1) * k - i * k = k := by
    rw [Nat.add_mul, Nat.one_mul, Nat.add_sub_cancel_left]
  rw [pagedRepositories, jsSlice, e1, e2]

/-- Concatenating the first `m` blocks of size `k` gives the first `m * k`
items. -/
theorem flatten_take_pages {α : Type} (k : Nat) :
    ∀ (m : Nat) (l : List α),
      ((List.range m).map (fun i => (l.drop (i * k)).take k)).flatten = l.take (m * k) := by
  intro m
  induction m with
  | zero => intro l; simp
  | succ n ih =>
    intro l
    rw [List.range_succ, List.map_append, List.flatten_append]
    simp only [List.map_cons, List.map_nil, List.flatten_cons, List.flatten_nil,
      List.append_nil]
    rw [ih l]
    have e : (n + 1) * k = n * k + k := by rw [Nat.add_mul, Nat.one_mul]
    rw [e, List.take_add]

/-- C4: for every item sequence, `page ≥ 1` and `pageSize ≥ 1`, the Paginator
returns exactly the sub-sequence `items[(page-1)*pageSize : page*pageSize]`;
`totalPages` equals `ceil(len(items) / pageSize)` with a minimum of 1 even for
empty input; a `page` beyond `totalPages` yields the empty sequence; and in
particular `Paginator([], 1, 10) = []` with `totalPages = 1`. -/
theorem paginator_slice_bounds {α : Type} (items : List α) (page pageSize : Nat)
    (hp : 1 ≤ page) (hk : 1 ≤ pageSize) :
    pagedRepositories items page pageSize
        = jsSlice items ((page - 1) * pageSize) (page * pageSize)
      ∧ totalPages items.length pageSize
        = max 1 ((items.length + pageSize - 1) / pageSize)
      ∧ (totalPages items.length pageSize < page →
          pagedRepositories items page pageSize = [])
      ∧ pagedRepositories ([] : List α) 1 10 = [] ∧ totalPages 0 10 = 1 := by
  refine ⟨rfl, rfl, ?_, rfl, rfl⟩
  intro h
  have h1 : items.length ≤ totalPages items.length pageSize * pageSize :=
    le_totalPages_mul items.length pageSize hk
  have h2 : totalPages items.length pageSize * pageSize ≤ (page - 1) * pageSize :=
    Nat.mul_le_mul (by omega) (le_refl pageSize)
  have h3 : items.length ≤ (page - 1) * pageSize := le_trans h1 h2
  simp [pagedRepositories, jsSlice, List.drop_eq_nil_of_le h3]

/-- C4 witness: a page beyond `totalPages` of a concrete list is empty, and
the other conjuncts hold at that instance. -/
theorem paginator_slice_bounds_witness :
    pagedRepositories [10, 20, 30] 5 2 = jsSlice [10, 20, 30] ((5 - 1) * 2) (5 * 2)
      ∧ totalPages ([10, 20, 30] : List Nat).length 2
        = max 1 ((([10, 20, 30] : List Nat).length + 2 - 1) / 2)
      ∧ (totalPages ([10, 20, 30] : List Nat).length 2 < 5 →
          pagedRepositories [10, 20, 30] 5 2 = [])
      ∧ pagedRepositories ([] : List Nat) 1 10 = [] ∧ totalPages 0 10 = 1 :=
  paginator_slice_bounds [10, 20, 30] 5 2 (by decide) (by decide)

/-- C2: for every item sequence and `pageSize ≥ 1`, concatenating the pages
`1 .. totalPages` reconstructs the original sequence exactly — every element
once, in order, no duplicates, no omissions. -/
theorem paginator_partition {α : Type} (items : List α) (pageSize : Nat)
    (hk : 1 ≤ pageSize) :
    ((List.range (totalPages items.length pageSize)).map
        (fun i => pagedRepositories items (i + 1) pageSize)).flatten = items := by
  have hrw : (fun i => pagedRepositories items (i + 1) pageSize)
      = fun i => (items.drop (i * pageSize)).take pageSize :=
    funext fun i => pagedRepositories_succ items i pageSize
  rw [hrw, flatten_take_pages]
  exact List.take_of_length_le (le_totalPages_mul items.length pageSize hk)

/-- C2 witness: the partition property evaluated on a concrete 5-element
list with page size 2 (3 pages). -/
theorem paginator_partition_witness :
    ((List.range (totalPages ([1, 2, 3, 4, 5] : List Nat).length 2)).map
        (fun i => pagedRepositories [1, 2, 3, 4, 5] (i + 1) 2)).flatten
      = [1, 2, 3, 4, 5] :=
  paginator_partition [1, 2, 3, 4, 5] 2 (by decide)

/-! ## Filter Engine lemmas -/

/-- A record surviving `fieldMatches` carries a field value from the
selected set. -/
theorem fieldMatches_mem {f : Option String} {sel : List String}
    (h : fieldMatches f sel = true) : ∃ v, f = some v ∧ v ∈ sel := by
  cases f with
  | none => simp [fieldMatches] at h
  | some v =>
    simp only [fieldMatches, Bool.and_eq_true] at h
    exact ⟨v, rfl, by simpa using h.2⟩

/-- Membership after one guarded dimension filter: still a member of the
input, and the dimension predicate holds whenever that dimension is active. -/
theorem mem_applyDimFilter {sel : List String} {field : Repo → Option String}
    {l : List Repo} {r : Repo} (h : r ∈ applyDimFilter sel field l) :
    r ∈ l ∧ (sel ≠ [] → ∃ v, field r = some v ∧ v ∈ sel) := by
  unfold applyDimFilter at h
  split at h
  · have hm := List.mem_filter.mp h
    exact ⟨hm.1, fun _ => fieldMatches_mem hm.2⟩
  · next hc => exact ⟨h, fun hne => absurd (List.length_pos.mpr hne) hc⟩

/-- One guarded dimension filter produces a sublist of its input. -/
theorem applyDimFilter_sublist (sel : List String) (field : Repo → Option String)
    (l : List Repo) : List.Sublist (applyDimFilter sel field l) l := by
  unfold applyDimFilter
  split
  · exact List.filter_sublist l
  · exact List.Sublist.refl l

/-- Every ranked fuzzysort result is drawn from the candidate list, carries
its own best key score, and clears the threshold. -/
theorem mem_fuzzysortRanked {keyScore : String → String → Option Int}
    {term : String} {threshold : Int} {limit : Nat} {items : List Repo}
    {p : Int × Repo} (h : p ∈ fuzzysortRanked keyScore term threshold limit items) :
    p.2 ∈ items ∧ bestKeyScore keyScore term p.2 = some p.1 ∧ threshold ≤ p.1 := by
  unfold fuzzysortRanked at h
  have h1 := List.take_subset limit _ h
  have h2 := (List.perm_insertionSort scoreRel _).subset h1
  have h3 := List.mem_filter.mp h2
  obtain ⟨a, ha, hfa⟩ := List.mem_filterMap.mp h3.1
  rw [Option.map_eq_some'] at hfa
  obtain ⟨s, hs, hsp⟩ := hfa
  cases hsp
  exact ⟨ha, hs, of_decide_eq_true h3.2⟩

/-- Every fuzzysort match comes from the candidate list and has a score at
or above the threshold. -/
theorem mem_fuzzysortGo {keyScore : String → String → Option Int}
    {term : String} {threshold : Int} {limit : Nat} {items : List Repo}
    {r : Repo} (h : r ∈ fuzzysortGo keyScore term threshold limit items) :
    r ∈ items ∧ ∃ s, bestKeyScore keyScore term r = some s ∧ threshold ≤ s := by
  obtain ⟨p, hp, hpr⟩ := List.mem_map.mp h
  obtain ⟨h1, h2, h3⟩ := mem_fuzzysortRanked hp
  subst hpr
  exact ⟨h1, p.1, h2, h3⟩

/-- C1: every record produced by the Filter Engine is drawn from the input
and satisfies every active filter predicate — for each dimension with a
non-empty selected set, the record's field value is present (not null) and
a member of that set; all active dimensions hold simultaneously. -/
theorem filter_engine_sound (keyScore : String → String → Option Int)
    (repos : List Repo) (st : FilterState) (r : Repo)
    (hr : r ∈ filteredRepositories keyScore (some repos) st) :
    r ∈ repos
      ∧ (st.universitiesSelected ≠ [] →
          ∃ v, r.university = some v ∧ v ∈ st.universitiesSelected)
      ∧ (st.languagesSelected ≠ [] →
          ∃ v, r.language = some v ∧ v ∈ st.languagesSelected)
      ∧ (st.licensesSelected ≠ [] →
          ∃ v, r.license = some v ∧ v ∈ st.licensesSelected)
      ∧ (st.ownersSelected ≠ [] →
          ∃ v, r.owner = some v ∧ v ∈ st.ownersSelected)
      ∧ (st.topicsSelected ≠ [] →
          ∃ v, r.topic_area_ai = some v ∧ v ∈ st.topicsSelected) := by
  simp only [filteredRepositories] at hr
  have hr5 : r ∈ applyDimFilter st.topicsSelected (fun r => r.topic_area_ai)
      (applyDimFilter st.ownersSelected (fun r => r.owner)
        (applyDimFilter st.licensesSelected (fun r => r.license)
          (applyDimFilter st.languagesSelected (fun r => r.language)
            (applyDimFilter st.universitiesSelected (fun r => r.university) repos)))) := by
    split at hr
    · exact (mem_fuzzysortGo hr).1
    · exact hr
  obtain ⟨hr4, h5⟩ := mem_applyDimFilter hr5
  obtain ⟨hr3, h4⟩ := mem_applyDimFilter hr4
  obtain ⟨hr2, h3⟩ := mem_applyDimFilter hr3
  obtain ⟨hr1, h2⟩ := mem_applyDimFilter hr2
  obtain ⟨hr0, h1⟩ := mem_applyDimFilter hr1
  exact ⟨hr0, h1, h2, h3, h4, h5⟩

/-- C1 witness: with the university filter `["UC Berkeley"]` active on two
concrete records, the surviving Berkeley record satisfies every conjunct. -/
theorem filter_engine_sound_witness :
    bRepo ∈ [bRepo, lRepo]
      ∧ (uniOnlySt.universitiesSelected ≠ [] →
          ∃ v, bRepo.university = some v ∧ v ∈ uniOnlySt.universitiesSelected)
      ∧ (uniOnlySt.languagesSelected ≠ [] →
          ∃ v, bRepo.language = some v ∧ v ∈ uniOnlySt.languagesSelected)
      ∧ (uniOnlySt.licensesSelected ≠ [] →
          ∃ v, bRepo.license = some v ∧ v ∈ uniOnlySt.licensesSelected)
      ∧ (uniOnlySt.ownersSelected ≠ [] →
          ∃ v, bRepo.owner = some v ∧ v ∈ uniOnlySt.ownersSelected)
      ∧ (uniOnlySt.topicsSelected ≠ [] →
          ∃ v, bRepo.topic_area_ai = some v ∧ v ∈ uniOnlySt.topicsSelected) :=
  filter_engine_sound constScore [bRepo, lRepo] uniOnlySt bRepo (by decide)

/-- C5: with a non-empty (post-trim) search term the Filter Engine output is
the fuzzysort ranking of the category-filtered records — at most the fixed
limit of 50 (within the documented 50–100 range) results, ordered by
descending relevance, every one scoring at or above the fixed floor against
the `full_name`/`description` keys; with an empty or whitespace-only term the
output is a sublist of the input (original order, no implicit sort). -/
theorem fuzzy_search_contract (keyScore : String → String → Option Int)
    (repos : List Repo) (st : FilterState) :
    (trimStr st.searchTerm ≠ "" →
      ∃ base ranked, List.Sublist base repos
        ∧ ranked = fuzzysortRanked keyScore st.searchTerm fuzzyThreshold fuzzyLimit base
        ∧ filteredRepositories keyScore (some repos) st = ranked.map Prod.snd
        ∧ ranked.length ≤ fuzzyLimit ∧ 50 ≤ fuzzyLimit ∧ fuzzyLimit ≤ 100
        ∧ List.Sorted scoreRel ranked
        ∧ ∀ p ∈ ranked, fuzzyThreshold ≤ p.1
            ∧ bestKeyScore keyScore st.searchTerm p.2 = some p.1)
      ∧ (trimStr st.searchTerm = "" →
          List.Sublist (filteredRepositories keyScore (some repos) st) repos) := by
  have hchain : List.Sublist
      (applyDimFilter st.topicsSelected (fun r => r.topic_area_ai)
        (applyDimFilter st.ownersSelected (fun r => r.owner)
          (applyDimFilter st.licensesSelected (fun r => r.license)
            (applyDimFilter st.languagesSelected (fun r => r.language)
              (applyDimFilter st.universitiesSelected (fun r => r.university) repos)))))
      repos :=
    ((((applyDimFilter_sublist _ _ _).trans
      (applyDimFilter_sublist _ _ _)).trans
        (applyDimFilter_sublist _ _ _)).trans
          (applyDimFilter_sublist _ _ _)).trans
            (applyDimFilter_sublist _ _ _)
  constructor
  · intro h
    refine ⟨_, _, hchain, rfl, ?_, ?_, le_refl _, by decide, ?_, ?_⟩
    · simp only [filteredRepositories]
      rw [if_pos (bne_iff_ne.mpr h)]
      rfl
    · exact List.length_take_le _ _
    · exact List.Pairwise.sublist (List.take_sublist _ _)
        (List.sorted_insertionSort scoreRel _)
    · intro p hp
      obtain ⟨_, h2, h3⟩ := mem_fuzzysortRanked hp
      exact ⟨h3, h2⟩
  · intro h
    simp only [filteredRepositories]
    rw [if_neg (by simp [h])]
    exact hchain

/-- C5 witness: both branches at concrete inputs — a non-empty term yields a
ranked result, and the empty term yields a sublist of the input. -/
theorem fuzzy_search_contract_witness :
    (∃ base ranked, List.Sublist base [bRepo, lRepo]
        ∧ ranked = fuzzysortRanked constScore searchSt.searchTerm fuzzyThreshold
            fuzzyLimit base
        ∧ filteredRepositories constScore (some [bRepo, lRepo]) searchSt
            = ranked.map Prod.snd
        ∧ ranked.length ≤ fuzzyLimit ∧ 50 ≤ fuzzyLimit ∧ fuzzyLimit ≤ 100
        ∧ List.Sorted scoreRel ranked
        ∧ ∀ p ∈ ranked, fuzzyThreshold ≤ p.1
            ∧ bestKeyScore constScore searchSt.searchTerm p.2 = some p.1)
      ∧ List.Sublist (filteredRepositories constScore (some [bRepo, lRepo]) uniOnlySt)
          [bRepo, lRepo] :=
  ⟨(fuzzy_search_contract constScore [bRepo, lRepo] searchSt).1 (by decide),
    (fuzzy_search_contract constScore [bRepo, lRepo] uniOnlySt).2 (by decide)⟩

/-! ## Query Service lemmas -/

/-- The search clause only discards rows. -/
theorem applySearch_subset (q : Option String) (stmt : List Repository) :
    applySearch q stmt ⊆ stmt := by
  intro r hr
  cases q with
  | none => exact hr
  | some s =>
    simp only [applySearch] at hr
    split at hr
    · exact List.filter_subset' stmt hr
    · exact hr

/-- A category clause only discards rows. -/
theorem applyCatFilter_subset (vals : List String) (field : Repository → Option String)
    (stmt : List Repository) : applyCatFilter vals field stmt ⊆ stmt := by
  intro r hr
  unfold applyCatFilter at hr
  split at hr
  · exact List.filter_subset' stmt hr
  · exact hr

/-- `OFFSET` only discards rows. -/
theorem applyOffset_subset (offset : Option Int) (stmt : List Repository) :
    applyOffset offset stmt ⊆ stmt := by
  intro r hr
  cases offset with
  | none => exact hr
  | some o =>
    simp only [applyOffset] at hr
    split at hr
    · exact List.drop_subset _ stmt hr
    · exact hr

/-- `LIMIT` only discards rows. -/
theorem applyLimit_subset (limit : Option Int) (stmt : List Repository) :
    applyLimit limit stmt ⊆ stmt := by
  intro r hr
  cases limit with
  | none => exact hr
  | some l =>
    simp only [applyLimit] at hr
    split at hr
    · exact List.take_subset _ stmt hr
    · exact hr

/-- Every row produced by the list query comes from the approved subset of
the view. -/
theorem list_repositories_subset_approved (p : ListParams) (rows : List Repository)
    {r : Repository} (h : r ∈ list_repositories p rows) :
    r ∈ rows.filter (fun r => r.approved) := by
  unfold list_repositories at h
  have h1 := applyOffset_subset p.offset _ (applyLimit_subset p.limit _ h)
  have h2 := (List.perm_insertionSort
    (fun a b => sqlOrderLE p.sort p.order a b = true) _).subset h1
  exact applySearch_subset p.q _
    (applyCatFilter_subset _ _ _
      (applyCatFilter_subset _ _ _
        (applyCatFilter_subset _ _ _
          (applyCatFilter_subset _ _ _
            (applyCatFilter_subset _ _ _ h2)))))

/-- C3: no unapproved record is ever returned — every row of any list
response and any successful single-record response has `approved = true`,
and a list request with no filters returns exactly the approved rows
(as a permutation induced by the default sort). -/
theorem approved_only (p : ListParams) (rows : List Repository) :
    (∀ r ∈ list_repositories p rows, r.approved = true)
      ∧ (∀ owner repo r, get_repository rows owner repo = Except.ok r →
          r.approved = true)
      ∧ List.Perm (list_repositories defaultListParams rows)
          (rows.filter (fun r => r.approved)) := by
  refine ⟨?_, ?_, ?_⟩
  · intro r h
    exact (List.mem_filter.mp (list_repositories_subset_approved p rows h)).2
  · intro owner repo r h
    unfold get_repository at h
    split at h
    · exact absurd h (by simp)
    · split at h
      · next r' hr' =>
        cases h
        have hm : r ∈ List.filter
            (fun r => (r.full_name == owner ++ "/" ++ repo) && r.approved) rows :=
          List.mem_of_mem_head? (by simp [hr'])
        have := (List.mem_filter.mp hm).2
        simp only [Bool.and_eq_true] at this
        exact this.2
      · exact absurd h (by simp)
  · unfold list_repositories applyLimit applyOffset applySearch applyCatFilter
      defaultListParams
    simp only [List.length_nil, Nat.lt_irrefl, if_false]
    exact List.perm_insertionSort _ _

/-- C3 witness: on the seeded rows, the one row returned by
`list(language=["Python"])` is approved, the row returned by the successful
lookup is approved, and the unfiltered list is a permutation of the
approved subset. -/
theorem approved_only_witness :
    (sampleRow "uc-berkeley/example-repo" (some "Python") 10 true).approved = true
      ∧ (sampleRow "uc-berkeley/example-repo" (some "Python") 10 true).approved = true
      ∧ List.Perm (list_repositories defaultListParams seedRows)
          (seedRows.filter (fun r => r.approved)) :=
  ⟨(approved_only { defaultListParams with language := ["Python"] } seedRows).1
      (sampleRow "uc-berkeley/example-repo" (some "Python") 10 true) (by decide),
    (approved_only defaultListParams seedRows).2.1 "uc-berkeley" "example-repo"
      (sampleRow "uc-berkeley/example-repo" (some "Python") 10 true) (by decide),
    (approved_only defaultListParams seedRows).2.2⟩

/-- C6: a sort field outside the allow-list `{stargazers_count, forks_count,
created_at}` does not fail: the request behaves identically to one with the
default sort field, both as a bare query and at the endpoint. -/
theorem sort_fallback_default (p : ListParams) (rows : List Repository)
    (h : p.sort ∉ (["stargazers_count", "forks_count", "created_at"] : List String)) :
    list_repositories p rows
        = list_repositories { p with sort := "stargazers_count" } rows
      ∧ list_repositories_endpoint p rows
        = list_repositories_endpoint { p with sort := "stargazers_count" } rows := by
  simp only [List.mem_cons, List.not_mem_nil, or_false, not_or] at h
  obtain ⟨h1, h2, h3⟩ := h
  have hcol : sortColumn p.sort = sortColumn "stargazers_count" := by
    unfold sortColumn
    rw [if_neg h1, if_neg h2, if_neg h3, if_pos rfl]
  have hlist : list_repositories p rows
      = list_repositories { p with sort := "stargazers_count" } rows := by
    unfold list_repositories sqlOrderLE
    rw [hcol]
  refine ⟨hlist, ?_⟩
  unfold list_repositories_endpoint
  rw [hlist]

/-- C6 witness: `sort = "banana"` on the seeded rows behaves exactly like the
default sort. -/
theorem sort_fallback_default_witness :
    list_repositories { defaultListParams with sort := "banana" } seedRows
        = list_repositories
            { { defaultListParams with sort := "banana" } with
                sort := "stargazers_count" } seedRows
      ∧ list_repositories_endpoint { defaultListParams with sort := "banana" } seedRows
        = list_repositories_endpoint
            { { defaultListParams with sort := "banana" } with
                sort := "stargazers_count" } seedRows :=
  sort_fallback_default { defaultListParams with sort := "banana" } seedRows (by decide)

/-- C7: any requested limit outside `[1, 100]` (in particular 0 and 101) is
rejected with a 422 validation error before any results are produced, a
limit of 100 passes validation (when the offset does), and a negative
offset is likewise rejected. -/
theorem limit_offset_validation (p : ListParams) (rows : List Repository) :
    (∀ l : Int, p.limit = some l → (l < 1 ∨ 100 < l) →
        list_repositories_endpoint p rows = Except.error 422)
      ∧ (validateOffset p.offset = true →
          list_repositories_endpoint { p with limit := some 100 } rows
            = Except.ok (list_repositories { p with limit := some 100 } rows))
      ∧ (∀ o : Int, p.offset = some o → o < 0 →
          list_repositories_endpoint p rows = Except.error 422) := by
  refine ⟨?_, ?_, ?_⟩
  · intro l hl hout
    have hv : validateLimit p.limit = false := by
      rw [hl]
      simp only [validateLimit]
      rcases hout with h | h
      · simp [Int.not_le.mpr h]
      · simp [Int.not_le.mpr h]
    unfold list_repositories_endpoint
    rw [hv]
    simp
  · intro hoff
    have hv : validateLimit (some 100) = true := by decide
    unfold list_repositories_endpoint
    have hp1 : ({ p with limit := some 100 } : ListParams).limit = some 100 := rfl
    have hp2 : ({ p with limit := some 100 } : ListParams).offset = p.offset := rfl
    rw [hp1, hp2, hv, hoff]
    simp
  · intro o ho hneg
    have hv : validateOffset p.offset = false := by
      rw [ho]
      simp only [validateOffset]
      simp [Int.not_le.mpr hneg]
    unfold list_repositories_endpoint
    rw [hv]
    simp

/-- C7 witness: limits 0 and 101 are rejected, limit 100 succeeds, and a
negative offset is rejected, all on the seeded rows. -/
theorem limit_offset_validation_witness :
    list_repositories_endpoint { defaultListParams with limit := some 0 } seedRows
        = Except.error 422
      ∧ list_repositories_endpoint { defaultListParams with limit := some 101 } seedRows
        = Except.error 422
      ∧ list_repositories_endpoint
          { { defaultListParams with offset := some 1 } with limit := some 100 } seedRows
        = Except.ok (list_repositories
            { { defaultListParams with offset := some 1 } with limit := some 100 }
            seedRows)
      ∧ list_repositories_endpoint { defaultListParams with offset := some (-1) } seedRows
        = Except.error 422 :=
  ⟨(limit_offset_validation { defaultListParams with limit := some 0 } seedRows).1
      0 rfl (by decide),
    (limit_offset_validation { defaultListParams with limit := some 101 } seedRows).1
      101 rfl (by decide),
    (limit_offset_validation { defaultListParams with offset := some 1 } seedRows).2.1
      (by decide),
    (limit_offset_validation { defaultListParams with offset := some (-1) } seedRows).2.2
      (-1) rfl (by decide)⟩

/-- C8 counterexample: at the concrete pair `("", "x")` (an empty owner
segment) over an empty view the lookup returns a 400 validation error, which
is neither a record nor the 404 not-found outcome — so the two outcomes
named by the claim are not exhaustive over all owner/name pairs. -/
theorem get_repository_badRequest :
    get_repository [] "" "x" = Except.error 400
      ∧ (400 : Nat) ≠ 404
      ∧ (get_repository [] "" "x").isOk = false := by
  exact ⟨rfl, by decide, rfl⟩

/-- C8 (amended): for every owner and name pair with both components
non-empty, over a view whose `full_name`s are unique, the lookup either
returns exactly the one approved record whose `full_name` is
`owner ++ "/" ++ name`, or returns 404 exactly when no approved record
matches; the two outcomes are mutually exclusive since the result pins the
response to different constructors.  (Empty components are rejected with a
400 validation error instead.) -/
theorem get_repository_outcomes (rows : List Repository) (owner repo : String)
    (howner : owner ≠ "") (hrepo : repo ≠ "")
    (huniq : (rows.map (fun r => r.full_name)).Nodup) :
    (∃ r ∈ rows, r.approved = true ∧ r.full_name = owner ++ "/" ++ repo
        ∧ get_repository rows owner repo = Except.ok r
        ∧ ∀ r' ∈ rows, r'.approved = true → r'.full_name = owner ++ "/" ++ repo →
            r' = r)
      ∨ (get_repository rows owner repo = Except.error 404
          ∧ ∀ r' ∈ rows,
              ¬(r'.approved = true ∧ r'.full_name = owner ++ "/" ++ repo)) := by
  have hcond : (owner == "" || repo == "") = false := by
    simp only [Bool.or_eq_false_iff]
    exact ⟨beq_eq_false_iff_ne.mpr howner, beq_eq_false_iff_ne.mpr hrepo⟩
  unfold get_repository
  rw [if_neg (by rw [hcond]; exact Bool.false_ne_true)]
  split
  · next r hh =>
    left
    have hm : r ∈ rows.filter
        (fun r => (r.full_name == owner ++ "/" ++ repo) && r.approved) :=
      List.mem_of_mem_head? (by simp [hh])
    have hp := List.mem_filter.mp hm
    have hb := hp.2
    simp only [Bool.and_eq_true, beq_iff_eq] at hb
    refine ⟨r, hp.1, hb.2, hb.1, rfl, ?_⟩
    intro r' hr' _ hfn
    exact List.inj_on_of_nodup_map huniq hr' hp.1 (by rw [hfn, hb.1])
  · next hh =>
    right
    have hnil := List.head?_eq_none_iff.mp hh
    have hall := List.filter_eq_nil_iff.mp hnil
    refine ⟨rfl, ?_⟩
    intro r' hr' hc
    have hnot := hall r' hr'
    simp only [Bool.and_eq_true, beq_iff_eq, not_and] at hnot
    exact absurd hc.1 (hnot hc.2)

/-- C8 witness: on the seeded rows, `get("uc-berkeley", "example-repo")`
lands in the record outcome and `get("uc-berkeley", "does-not-exist")` in
the 404 outcome. -/
theorem get_repository_outcomes_witness :
    ((∃ r ∈ seedRows, r.approved = true
          ∧ r.full_name = "uc-berkeley" ++ "/" ++ "example-repo"
          ∧ get_repository seedRows "uc-berkeley" "example-repo" = Except.ok r
          ∧ ∀ r' ∈ seedRows, r'.approved = true →
              r'.full_name = "uc-berkeley" ++ "/" ++ "example-repo" → r' = r)
        ∨ (get_repository seedRows "uc-berkeley" "example-repo" = Except.error 404
            ∧ ∀ r' ∈ seedRows,
                ¬(r'.approved = true
                  ∧ r'.full_name = "uc-berkeley" ++ "/" ++ "example-repo")))
      ∧ ((∃ r ∈ seedRows, r.approved = true
            ∧ r.full_name = "uc-berkeley" ++ "/" ++ "does-not-exist"
            ∧ get_repository seedRows "uc-berkeley" "does-not-exist" = Except.ok r
            ∧ ∀ r' ∈ seedRows, r'.approved = true →
                r'.full_name = "uc-berkeley" ++ "/" ++ "does-not-exist" → r' = r)
          ∨ (get_repository seedRows "uc-berkeley" "does-not-exist"
                = Except.error 404
              ∧ ∀ r' ∈ seedRows,
                  ¬(r'.approved = true
                    ∧ r'.full_name = "uc-berkeley" ++ "/" ++ "does-not-exist"))) :=
  ⟨get_repository_outcomes seedRows "uc-berkeley" "example-repo"
      (by decide) (by decide) (by decide),
    get_repository_outcomes seedRows "uc-berkeley" "does-not-exist"
      (by decide) (by decide) (by decide)⟩

/-- C10: the page-reset effect leaves the page unchanged when only the
topic-area selection differs between two renders (its dependency array
omits `topicsSelected`), resets it to 1 when the search term or any of the
other four selections changed, and there are concrete states differing only
in `topicsSelected` where the retained page exceeds the new `totalPages`. -/
theorem page_reset_frame (prev next : FilterState) (page : Nat) :
    (prev.searchTerm = next.searchTerm →
      prev.universitiesSelected = next.universitiesSelected →
      prev.languagesSelected = next.languagesSelected →
      prev.licensesSelected = next.licensesSelected →
      prev.ownersSelected = next.ownersSelected →
      pageAfterFilterChange prev next page = page)
      ∧ (pageResetDeps prev ≠ pageResetDeps next →
          pageAfterFilterChange prev next page = 1)
      ∧ ∃ (ks : String → String → Option Int) (repos : List Repo)
          (p2 n2 : FilterState) (pg pageSize : Nat),
          pageResetDeps p2 = pageResetDeps n2
          ∧ p2.topicsSelected ≠ n2.topicsSelected
          ∧ pageAfterFilterChange p2 n2 pg = pg
          ∧ pg ≤ totalPages (filteredRepositories ks (some repos) p2).length pageSize
          ∧ totalPages (filteredRepositories ks (some repos) n2).length pageSize
              < pg := by
  refine ⟨?_, ?_, ?_⟩
  · intro e1 e2 e3 e4 e5
    have heq : pageResetDeps prev = pageResetDeps next := by
      unfold pageResetDeps
      rw [e1, e2, e3, e4, e5]
    unfold pageAfterFilterChange
    rw [if_neg (fun hne => hne heq)]
  · intro hne
    unfold pageAfterFilterChange
    rw [if_pos hne]
  · refine ⟨constScore, List.replicate 21 bRepo, emptySt,
      { emptySt with topicsSelected := ["none-such"] }, 2, 20,
      rfl, by decide, by decide, by decide, by decide⟩

/-- C10 witness: a topics-only change keeps page 4; activating a university
filter resets to page 1. -/
theorem page_reset_frame_witness :
    pageAfterFilterChange emptySt { emptySt with topicsSelected := ["AI"] } 4 = 4
      ∧ pageAfterFilterChange emptySt uniOnlySt 4 = 1 :=
  ⟨(page_reset_frame emptySt { emptySt with topicsSelected := ["AI"] } 4).1
      rfl rfl rfl rfl rfl,
    (page_reset_frame emptySt uniOnlySt 4).2.1 (by decide)⟩

/-! ## Page-number display lemmas -/

/-- On a duplicate-free list the first-occurrence filter is the identity. -/
theorem dedupFirstAux_of_nodup :
    ∀ (l seen : List PageToken), l.Nodup → (∀ a ∈ l, seen.contains a = false) →
      dedupFirstAux seen l = l := by
  intro l
  induction l with
  | nil => intro seen _ _; rfl
  | cons a l ih =>
    intro seen hnd hs
    have h0 := hs a (List.mem_cons_self a l)
    simp only [dedupFirstAux]
    rw [if_neg (by rw [h0]; exact Bool.false_ne_true)]
    congr 1
    apply ih (a :: seen) (List.nodup_cons.mp hnd).2
    intro b hb
    have hba : (b == a) = false := beq_eq_false_iff_ne.mpr
      (fun he => (List.nodup_cons.mp hnd).1 (he ▸ hb))
    have hsb := hs b (List.mem_cons_of_mem a hb)
    simp only [List.contains_cons, hba, hsb, Bool.false_or]

/-- `dedupFirst` is the identity on duplicate-free token lists. -/
theorem dedupFirst_of_nodup (l : List PageToken) (h : l.Nodup) : dedupFirst l = l :=
  dedupFirstAux_of_nodup l [] h (fun _ _ => rfl)

/-- C9: for `1 ≤ current ≤ total` the page-number display always contains
the first and last pages, is duplicate-free with its numeric tokens in
strictly ascending order, and when the current page is far from both ends
(`3 < current < total - 2` with more than 7 pages) it shows both ellipsis
gap markers and exactly the 3 consecutive page numbers around the current
page between the endpoints. -/
theorem page_numbers_display (current total : Nat)
    (h1 : 1 ≤ current) (h2 : current ≤ total) :
    PageToken.num 1 ∈ getPageNumbers current total
      ∧ PageToken.num total ∈ getPageNumbers current total
      ∧ (getPageNumbers current total).Nodup
      ∧ ((getPageNumbers current total).filterMap tokenNum).Pairwise (· < ·)
      ∧ (7 < total → 3 < current → current < total - 2 →
          PageToken.ellipsisPrev ∈ getPageNumbers current total
          ∧ PageToken.ellipsisNext ∈ getPageNumbers current total
          ∧ (getPageNumbers current total).filterMap tokenNum
              = [1, current - 1, current, current + 1, total]) := by
  have htot : 1 ≤ total := le_trans h1 h2
  unfold getPageNumbers
  by_cases h7 : total ≤ 7
  · rw [if_pos h7]
    refine ⟨?_, ?_, ?_, ?_, ?_⟩
    · exact List.mem_map.mpr ⟨0, List.mem_range.mpr (by omega), rfl⟩
    · exact List.mem_map.mpr ⟨total - 1, List.mem_range.mpr (by omega),
        by rw [Nat.sub_add_cancel htot]⟩
    · refine List.Nodup.map ?_ (List.nodup_range total)
      intro a b hab
      simp only [PageToken.num.injEq] at hab
      omega
    · rw [List.filterMap_map]
      rw [show (tokenNum ∘ fun i => PageToken.num (i + 1))
          = some ∘ (fun i : Nat => i + 1) from rfl]
      rw [List.filterMap_eq_map]
      exact List.Pairwise.map _ (fun hab => by omega) (List.pairwise_lt_range total)
    · intro hgt _ _
      omega
  · rw [if_neg h7]
    have h8 : 8 ≤ total := by omega
    dsimp only
    by_cases hc3 : current ≤ 3
    · rw [if_pos hc3]
      by_cases hlt3 : current < 3
      · rw [if_pos hlt3]
        have e : (([PageToken.num 1] ++ [PageToken.num 2, PageToken.num 3])
              ++ [PageToken.ellipsisNext]) ++ [PageToken.num total]
            = [PageToken.num 1, PageToken.num 2, PageToken.num 3,
                PageToken.ellipsisNext, PageToken.num total] := by simp
        rw [e]
        have hnd : ([PageToken.num 1, PageToken.num 2, PageToken.num 3,
            PageToken.ellipsisNext, PageToken.num total]).Nodup := by
          simp
          omega
        rw [dedupFirst_of_nodup _ hnd]
        refine ⟨by simp, by simp, hnd, ?_, ?_⟩
        · simp [tokenNum]
          omega
        · intro _ hgt _
          omega
      · rw [if_neg hlt3]
        have e : (([PageToken.num 1] ++ [PageToken.num 2, PageToken.num 3])
              ++ []) ++ [PageToken.num total]
            = [PageToken.num 1, PageToken.num 2, PageToken.num 3,
                PageToken.num total] := by simp
        rw [e]
        have hnd : ([PageToken.num 1, PageToken.num 2, PageToken.num 3,
            PageToken.num total]).Nodup := by
          simp
          omega
        rw [dedupFirst_of_nodup _ hnd]
        refine ⟨by simp, by simp, hnd, ?_, ?_⟩
        · simp [tokenNum]
          omega
        · intro _ hgt _
          omega
    · rw [if_neg hc3]
      by_cases hend : total - 2 ≤ current
      · rw [if_pos hend]
        have er : List.range 4 = [0, 1, 2, 3] := rfl
        rw [er]
        have e : (([PageToken.num 1] ++ [PageToken.ellipsisPrev])
              ++ [PageToken.num (total - 4 + 0), PageToken.num (total - 4 + 1),
                  PageToken.num (total - 4 + 2), PageToken.num (total - 4 + 3)])
              ++ [PageToken.num total]
            = [PageToken.num 1, PageToken.ellipsisPrev, PageToken.num (total - 4),
                PageToken.num (total - 4 + 1), PageToken.num (total - 4 + 2),
                PageToken.num (total - 4 + 3), PageToken.num total] := by simp
        rw [List.map_cons, List.map_cons, List.map_cons, List.map_cons,
          List.map_nil, e]
        have hnd : ([PageToken.num 1, PageToken.ellipsisPrev,
            PageToken.num (total - 4), PageToken.num (total - 4 + 1),
            PageToken.num (total - 4 + 2), PageToken.num (total - 4 + 3),
            PageToken.num total]).Nodup := by
          simp
          omega
        rw [dedupFirst_of_nodup _ hnd]
        refine ⟨by simp, by simp, hnd, ?_, ?_⟩
        · simp [tokenNum]
          omega
        · intro _ _ hfar
          omega
      · rw [if_neg hend]
        have e : [PageToken.num 1] ++ [PageToken.ellipsisPrev,
              PageToken.num (current - 1), PageToken.num current,
              PageToken.num (current + 1), PageToken.ellipsisNext]
              ++ [PageToken.num total]
            = [PageToken.num 1, PageToken.ellipsisPrev, PageToken.num (current - 1),
                PageToken.num current, PageToken.num (current + 1),
                PageToken.ellipsisNext, PageToken.num total] := by simp
        rw [e]
        have hnd : ([PageToken.num 1, PageToken.ellipsisPrev,
            PageToken.num (current - 1), PageToken.num current,
            PageToken.num (current + 1), PageToken.ellipsisNext,
            PageToken.num total]).Nodup := by
          simp
          omega
        rw [dedupFirst_of_nodup _ hnd]
        refine ⟨by simp, by simp, hnd, ?_, ?_⟩
        · simp [tokenNum]
          omega
        · intro _ _ _
          exact ⟨by simp, by simp, by simp [tokenNum]⟩

/-- C9 witness: the display for page 5 of 20 contains pages 1 and 20,
is duplicate-free and ascending, and shows both gaps with pages 4, 5, 6
around the current page. -/
theorem page_numbers_display_witness :
    PageToken.num 1 ∈ getPageNumbers 5 20
      ∧ PageToken.num 20 ∈ getPageNumbers 5 20
      ∧ (getPageNumbers 5 20).Nodup
      ∧ ((getPageNumbers 5 20).filterMap tokenNum).Pairwise (· < ·)
      ∧ PageToken.ellipsisPrev ∈ getPageNumbers 5 20
      ∧ PageToken.ellipsisNext ∈ getPageNumbers 5 20
      ∧ (getPageNumbers 5 20).filterMap tokenNum = [1, 4, 5, 6, 20] := by
  have h := page_numbers_display 5 20 (by decide) (by decide)
  obtain ⟨hp, hq, hnd, hasc, hfar⟩ := h
  obtain ⟨hf1, hf2, hf3⟩ := hfar (by decide) (by decide) (by decide)
  exact ⟨hp, hq, hnd, hasc, hf1, hf2, hf3⟩

end Orb
